import Mathlib

/-!
Verification development for the glitch-db partition engine.

The definitions below are a shallow embedding of the TypeScript source:

* `src/GlitchPartition.ts` — the plain partition (`GlitchPartitionImpl`):
  files, index map, LRU cache, `exists` / `get` / `set` / `delete`.
* `src/GlitchUnitemporalPartition.ts` — the unitemporal partition.
* `src/GlitchBitemporalPartition.ts` — the bitemporal partition.
* `src/GlitchDB.ts` — the partition registry.

Modelling conventions:

* JSON values are the inductive `Json`; machine numbers that appear in the
  claims (timestamps, versions, the −1 sentinel) are `Int` / `Nat`.
* The filesystem is explicit state: a partition directory is a map from
  key to file contents.  A file either holds well-formed JSON of a value
  (`FileData.good v`, the result of `JSON.stringify`) or text that fails
  `JSON.parse` (`FileData.corrupt s`).  `fs` calls are modelled as total
  lookups/updates; a read of a missing file, which throws in the source
  and is caught, is the `none` branch.
* The LRU cache is modelled as an unbounded map (plain partition) or a
  single slot (single-key temporal models); LRU eviction only removes
  entries and none of the claims depend on capacity.  A partition
  constructed with `cacheSize > 0` is modelled.
* JavaScript truthiness tests (`if (value)`, `if (cachedData)`,
  `if (!version)`) are modelled by `jsTruthy` and explicit `≠ 0` tests.
-/

/-- JSON values, the data carried by a partition. -/
inductive Json where
  | null : Json
  | bool : Bool → Json
  | num : Int → Json
  | str : String → Json
  | arr : List Json → Json
  | obj : List (String × Json) → Json

/-- JavaScript truthiness of a JSON value: `false`, `0`, `""` and `null`
are falsy, everything else (arrays and objects included) is truthy. -/
def jsTruthy : Json → Bool
  | .null => false
  | .bool b => b
  | .num n => decide (n ≠ 0)
  | .str s => decide (s ≠ "")
  | .arr _ => true
  | .obj _ => true

/-- First binding of a field name in a JSON object literal. -/
def lookupField : List (String × Json) → String → Option Json
  | [], _ => none
  | (k, v) :: rest, s => if k = s then some v else lookupField rest s

/-- Walk of a list of path segments through nested JSON, the core of
`lodash.get`: object fields by name, array elements by decimal index;
any other intermediate yields the absent sentinel.  (Properties of
primitives, such as string `length`, are not modelled.) -/
def lgetSegs : Json → List String → Option Json
  | j, [] => some j
  | j, s :: rest =>
    match j with
    | .obj kvs =>
      match lookupField kvs s with
      | some v => lgetSegs v rest
      | none => none
    | .arr xs =>
      match s.toNat? with
      | some n =>
        match xs.get? n with
        | some v => lgetSegs v rest
        | none => none
      | none => none
    | _ => none

/-- Dotted-path field extraction, `lodash.get(value, pattern)` as used by
`setIndices` / `deleteIndices` in `src/GlitchPartition.ts`. -/
def lget (v : Json) (path : String) : Option Json :=
  lgetSegs v (path.splitOn ".")

mutual
/-- JavaScript string coercion `"" + x` of a JSON value, used when index
values are written into the index map. -/
def jsToString : Json → String
  | .null => "null"
  | .bool true => "true"
  | .bool false => "false"
  | .num n => toString n
  | .str s => s
  | .arr xs => String.intercalate "," (jsArrParts xs)
  | .obj _ => "[object Object]"

/-- Element strings of an array under JavaScript `Array.prototype.join`:
`null` joins as the empty string, other elements by their coercion. -/
def jsArrParts : List Json → List String
  | [] => []
  | .null :: rest => "" :: jsArrParts rest
  | x :: rest => jsToString x :: jsArrParts rest
end

/-- Contents of one key file on disk: either well-formed JSON of a value
(what `JSON.stringify` produces) or text on which `JSON.parse` throws. -/
inductive FileData where
  | good : Json → FileData
  | corrupt : String → FileData

/-- Result of `JSON.parse` on a key file's contents. -/
def parseFile : FileData → Option Json
  | .good v => some v
  | .corrupt _ => none

/-- Finite string-keyed maps, modelled as functions. -/
def Smap (α : Type) := String → Option α

/-- Point update of a map. -/
def supd {α : Type} (m : Smap α) (k : String) (v : Option α) : Smap α :=
  fun x => if x = k then v else m x

/-- In-memory state of a plain partition (`GlitchPartitionImpl`):
the key files of its directory, the index map and the LRU cache. -/
structure PState where
  files : Smap FileData
  indexMap : Smap String
  cache : Smap Json

/-- Resolution of a lookup key through the index map,
`this.#indexMap[key] ?? key` (`resolveKey`). -/
def resolveKey (σ : PState) (key : String) : String :=
  (σ.indexMap key).getD key

/-- The key deleted from the index map for one pattern by
`deleteIndices`: `delete this.#indexMap[lget(value, pattern)]` — when the
extraction is absent, JavaScript deletes the property named
`"undefined"`. -/
def delKey (vo : Option Json) (pat : String) : String :=
  match vo.bind (fun v => lget v pat) with
  | some j => jsToString j
  | none => "undefined"

/-- Effect of `deleteIndices(value)` on the index map: for each declared
pattern, delete the entry named by the extracted index (the in-memory
map is authoritative; the flush to `__index__.json` is not modelled). -/
def deleteIndicesMap (idx : List String) (vo : Option Json) (m : Smap String) : Smap String :=
  idx.foldl (fun m p => supd m (delKey vo p) none) m

/-- Effect of `setIndices(key, value)` on the index map: for each pattern
whose extraction is not absent, bind the coerced index to the primary
key. -/
def setIndicesMap (idx : List String) (key : String) (v : Json) (m : Smap String) : Smap String :=
  idx.foldl
    (fun m p =>
      match lget v p with
      | some j => supd m (jsToString j) (some key)
      | none => m)
    m

/-- The alternative keys a value contributes to the index map under the
declared patterns. -/
def extrList (idx : List String) (v : Json) : List String :=
  idx.filterMap (fun p => (lget v p).map jsToString)

/-- `exists(key)` of the plain partition: resolve the key, then cache
membership or a successful `stat` of the key file (a corrupt file is
still a file). -/
def plainExists (σ : PState) (key : String) : Bool :=
  let r := resolveKey σ key
  (σ.cache r).isSome || (σ.files r).isSome

/-- `get(key)` of the plain partition: resolve the key; return a truthy
cache entry; otherwise read and parse the key file, populating the cache
on success.  Read and parse failures are caught in the source and
demoted to the absent sentinel, hence the total `Option` result. -/
def plainGet (σ : PState) (key : String) : Option Json × PState :=
  let r := resolveKey σ key
  let fileRead : Option Json × PState :=
    match σ.files r with
    | some fd =>
      match parseFile fd with
      | some p => (some p, { σ with cache := supd σ.cache r (some p) })
      | none => (none, σ)
    | none => (none, σ)
  match σ.cache r with
  | some c => if jsTruthy c then (some c, σ) else fileRead
  | none => fileRead

/-- `set(key, value)` of the plain partition: if the (resolved) key
exists, delete the indices derived from its current (resolved) value;
write the key file; set the new indices; write-through the cache.  The
filesystem is modelled as always succeeding, so the result is `true`. -/
def plainSet (idx : List String) (σ : PState) (key : String) (value : Json) : Bool × PState :=
  let σ1 :=
    if plainExists σ key then
      let g := plainGet σ key
      { g.2 with indexMap := deleteIndicesMap idx g.1 g.2.indexMap }
    else σ
  let σ2 := { σ1 with files := supd σ1.files key (some (.good value)) }
  let σ3 := { σ2 with indexMap := setIndicesMap idx key value σ2.indexMap }
  (true, { σ3 with cache := supd σ3.cache key (some value) })

/-- `delete(key)` of the plain partition: resolve the key, fetch its
value, evict the cache entry; only a truthy value leads to `rm` of the
file and index cleanup (an `rm` of a missing file throws and is caught,
returning `false`). -/
def plainDelete (idx : List String) (σ : PState) (key : String) : Bool × PState :=
  let r := resolveKey σ key
  let g := plainGet σ r
  let σ2 := { g.2 with cache := supd g.2.cache r none }
  match g.1 with
  | some v =>
    if jsTruthy v then
      match σ2.files r with
      | some _ =>
        let σ3 := { σ2 with files := supd σ2.files r none }
        (true, { σ3 with indexMap := deleteIndicesMap idx (some v) σ3.indexMap })
      | none => (false, σ2)
    else (false, σ2)
  | none => (false, σ2)

/-- Infinity sentinel for open-ended `deletedAt` and `validTo`.
Modelled from the spec: `constants.ts` is not included in the source
tree; the spec's sentinel section fixes `INFINITY_TIME = -1`. -/
def INFINITY_TIME : Int := -1

/-- Writer-supplied audit metadata, a free-form string map. -/
def Meta := List (String × String)

/-- One version slot of a unitemporal record
(`UnitemporallyVersionedData`).  Fields are `Option`-valued because a
JavaScript spread of a missing slot produces an object with absent
fields; every slot written by `set` has all fields present. -/
structure UniSlice where
  data : Option Json
  version : Option Nat
  createdAt : Option Int
  deletedAt : Option Int
  metadata : Option Meta

/-- A unitemporal record (`UnitemporallyVersioned`): the latest version
number and the slot map keyed by version number. -/
structure UniRecord where
  latestVersion : Nat
  data : Nat → Option UniSlice

/-- Point update of a slot map. -/
def nupd {α : Type} (m : Nat → Option α) (k : Nat) (v : Option α) : Nat → Option α :=
  fun x => if x = k then v else m x

/-- Single-key state of a unitemporal partition constructed without
indices: the record stored in the key's file and the cache entry for the
key.  (`resolveKey` is the identity and the index hooks are no-ops when
no index paths are declared.) -/
structure UniState where
  stored : Option UniRecord
  cache : Option Json

/-- JavaScript spread `{...data.data[lv-1], deletedAt: t}` of the
previous slot: fields of a missing slot spread to absent. -/
def uniSpreadDeleted (o : Option UniSlice) (t : Int) : UniSlice :=
  match o with
  | some s => { s with deletedAt := some t }
  | none => { data := none, version := none, createdAt := none, deletedAt := some t, metadata := none }

/-- `set(key, value, metadata)` of the unitemporal partition at wall
clock `now` (the source's `new Date().valueOf()`): bump `latestVersion`
(or start at 1), close the previous slot's `deletedAt`, append the new
slot with `deletedAt = INFINITY_TIME`, persist, write-through cache. -/
def uniSet (σ : UniState) (value : Json) (md : Option Meta) (now : Int) : Bool × UniState :=
  let lv : Nat := match σ.stored with | some r => r.latestVersion + 1 | none => 1
  let d : Nat → Option UniSlice := match σ.stored with | some r => r.data | none => fun _ => none
  let d1 := if lv ≠ 1 then nupd d (lv - 1) (some (uniSpreadDeleted (d (lv - 1)) now)) else d
  let d2 := nupd d1 lv (some { data := some value, version := some lv, createdAt := some now,
                               deletedAt := some INFINITY_TIME, metadata := md })
  (true, { stored := some { latestVersion := lv, data := d2 }, cache := some value })

/-- `get(key, version?)` of the unitemporal partition.  `if (!version)`
is true exactly when the version is omitted or `0`; only then is the
cache consulted (truthy entries) and repopulated with
`result?.data` afterwards.  A missing or unparseable key file is caught
and demoted to the absent sentinel. -/
def uniGet (σ : UniState) (version : Option Nat) : Option Json × UniState :=
  let vTruthy : Bool := match version with | some v => decide (v ≠ 0) | none => false
  let cacheHit : Option Json :=
    if vTruthy then none
    else match σ.cache with
      | some c => if jsTruthy c then some c else none
      | none => none
  match cacheHit with
  | some c => (some c, σ)
  | none =>
    match σ.stored with
    | none => (none, σ)
    | some r =>
      let result := r.data (version.getD r.latestVersion)
      let σ2 := if vTruthy then σ else { σ with cache := result.bind (fun s => s.data) }
      (result.bind (fun s => s.data), σ2)

/-- One slice of a bitemporal record (`BitemporallyVersionedData`):
the unitemporal fields plus the valid-time interval. -/
structure BiSlice where
  data : Option Json
  version : Option Nat
  createdAt : Option Int
  deletedAt : Option Int
  validFrom : Option Int
  validTo : Option Int
  metadata : Option Meta

/-- A bitemporal record as the source actually builds it: the latest
version number and the slice map keyed by version number.  (The fresh
record in `set` also carries a `rangeMap` field that no code ever reads;
it is omitted.) -/
structure BiRecord where
  latestVersion : Nat
  data : Nat → Option BiSlice

/-- Single-key state of a bitemporal partition constructed without
indices. -/
structure BiState where
  stored : Option BiRecord
  cache : Option Json

/-- JavaScript spread of the previous bitemporal slice with its
`deletedAt` closed. -/
def biSpreadDeleted (o : Option BiSlice) (t : Int) : BiSlice :=
  match o with
  | some s => { s with deletedAt := some t }
  | none => { data := none, version := none, createdAt := none, deletedAt := some t,
              validFrom := none, validTo := none, metadata := none }

/-- `set(key, value, validFrom?, validTo?, metadata?)` of the bitemporal
partition at wall clock `now`, exactly as the source implements it
(lines 145–189): the `validFrom` and `validTo` parameters are received
but never read; the new slice is always written with `validFrom: 0` and
`validTo: INFINITY_TIME`; no interval validation is performed and the
success result is returned. -/
def biSet (σ : BiState) (value : Json) (validFrom validTo : Option Int)
    (md : Option Meta) (now : Int) : Bool × BiState :=
  let lv : Nat := match σ.stored with | some r => r.latestVersion + 1 | none => 1
  let d : Nat → Option BiSlice := match σ.stored with | some r => r.data | none => fun _ => none
  let d1 := if lv ≠ 1 then nupd d (lv - 1) (some (biSpreadDeleted (d (lv - 1)) now)) else d
  let d2 := nupd d1 lv (some { data := some value, version := some lv, createdAt := some now,
                               deletedAt := some INFINITY_TIME, validFrom := some 0,
                               validTo := some INFINITY_TIME, metadata := md })
  (true, { stored := some { latestVersion := lv, data := d2 }, cache := some value })

/-- `get(key, validAsOf?, version?)` of the bitemporal partition
(lines 56–82): the `validAsOf` parameter is received but never read in
the body; the slice is chosen by `version ?? file.latestVersion` alone.
The cache is consulted and repopulated only when `!version`. -/
def biGet (σ : BiState) (validAsOf : Option Int) (version : Option Nat) :
    Option Json × BiState :=
  let vTruthy : Bool := match version with | some v => decide (v ≠ 0) | none => false
  let cacheHit : Option Json :=
    if vTruthy then none
    else match σ.cache with
      | some c => if jsTruthy c then some c else none
      | none => none
  match cacheHit with
  | some c => (some c, σ)
  | none =>
    match σ.stored with
    | none => (none, σ)
    | some r =>
      let result := r.data (version.getD r.latestVersion)
      let σ2 := if vTruthy then σ else { σ with cache := result.bind (fun s => s.data) }
      (result.bind (fun s => s.data), σ2)

/-- Valid-time slice of a bitemporal record as the spec describes it.
Modelled from the spec: used only to state what the claimed `get`
selection would return, for comparison with the source's behaviour. -/
structure SpecSlice where
  data : Json
  validFrom : Int
  validTo : Int

/-- Modelled from the spec: membership of a valid-time instant in a
slice's half-open interval, treating `validTo = INFINITY_TIME` as
positive infinity. -/
def specSliceContains (s : SpecSlice) (t : Int) : Bool :=
  decide (s.validFrom ≤ t) && (if s.validTo = INFINITY_TIME then true else decide (t < s.validTo))

/-- Modelled from the spec: the claimed point-in-time selection — the
data of the (unique) live slice whose interval contains the instant,
absent when none does. -/
def specSelectSlice (slices : List SpecSlice) (t : Int) : Option Json :=
  (slices.find? (fun s => specSliceContains s t)).map (fun s => s.data)

/-- One registry entry of `GlitchDB` (`src/GlitchDB.ts`): the recorded
partition name, cache size and versioned flag. -/
structure RegEntry where
  name : String
  cache : Nat
  versioned : Bool
deriving DecidableEq, Repr

/-- Registry state of `GlitchDB`: the default cache size bound at
construction and the partition registrations. -/
structure RegState where
  defaultCacheSize : Nat
  partitions : Smap RegEntry

/-- `getPartition(name, indices?, cacheSize?)`: record the registration
with `versioned: false` and hand out a plain partition. -/
def getPartitionReg (σ : RegState) (name : String) (cacheSize : Option Nat) : RegState :=
  { σ with partitions := (supd σ.partitions name
      (some { name := name, cache := cacheSize.getD σ.defaultCacheSize, versioned := false })) }

/-- `getVersionedPartition(name, indices?, cacheSize?)`: record the
registration with `versioned: true` and hand out a unitemporal
partition. -/
def getVersionedPartitionReg (σ : RegState) (name : String) (cacheSize : Option Nat) : RegState :=
  { σ with partitions := (supd σ.partitions name
      (some { name := name, cache := cacheSize.getD σ.defaultCacheSize, versioned := true })) }

/-- `getPartitionByName(name)`: on a registered name, re-register through
`getPartition(entry.name, null, entry.cache)` — which stores a fresh
entry with `versioned: false` — and return the resulting plain handle;
`none` models the thrown not-found error. -/
def getPartitionByNameReg (σ : RegState) (name : String) : Option RegState :=
  match σ.partitions name with
  | some e => some (getPartitionReg σ e.name (some e.cache))
  | none => none

/-! Basic lemmas about the map helpers. -/

theorem supd_self {α : Type} (m : Smap α) (k : String) (v : Option α) : supd m k v k = v := by
  simp [supd]

theorem supd_other {α : Type} (m : Smap α) {k x : String} (h : x ≠ k) (v : Option α) :
    supd m k v x = m x := by
  simp [supd, h]

theorem nupd_self {α : Type} (m : Nat → Option α) (k : Nat) (v : Option α) : nupd m k v k = v := by
  simp [nupd]

theorem nupd_other {α : Type} (m : Nat → Option α) {k x : Nat} (h : x ≠ k) (v : Option α) :
    nupd m k v x = m x := by
  simp [nupd, h]

theorem deleteIndicesMap_nil (vo : Option Json) (m : Smap String) :
    deleteIndicesMap [] vo m = m := rfl

theorem deleteIndicesMap_cons (p : String) (rest : List String) (vo : Option Json)
    (m : Smap String) :
    deleteIndicesMap (p :: rest) vo m = deleteIndicesMap rest vo (supd m (delKey vo p) none) := rfl

theorem setIndicesMap_nil (key : String) (v : Json) (m : Smap String) :
    setIndicesMap [] key v m = m := rfl

theorem setIndicesMap_cons (p : String) (rest : List String) (key : String) (v : Json)
    (m : Smap String) :
    setIndicesMap (p :: rest) key v m
      = setIndicesMap rest key v
          (match lget v p with
           | some j => supd m (jsToString j) (some key)
           | none => m) := rfl

/-- Every lookup in the map left by `deleteIndices` is either the old
binding or has been erased. -/
theorem deleteIndicesMap_lookup (idx : List String) (vo : Option Json) :
    ∀ (m : Smap String) (x : String),
      deleteIndicesMap idx vo m x = m x ∨ deleteIndicesMap idx vo m x = none := by
  induction idx with
  | nil => intro m x; exact Or.inl rfl
  | cons p rest ih =>
    intro m x
    rw [deleteIndicesMap_cons]
    rcases ih (supd m (delKey vo p) none) x with h | h
    · by_cases hx : x = delKey vo p
      · subst hx; rw [h, supd_self]; exact Or.inr rfl
      · rw [h, supd_other m hx]; exact Or.inl rfl
    · exact Or.inr h

/-- An absent binding stays absent through `deleteIndices`. -/
theorem deleteIndicesMap_none (idx : List String) (vo : Option Json) :
    ∀ (m : Smap String) (x : String), m x = none → deleteIndicesMap idx vo m x = none := by
  induction idx with
  | nil => intro m x h; exact h
  | cons p rest ih =>
    intro m x h
    rw [deleteIndicesMap_cons]
    refine ih _ _ ?_
    by_cases hx : x = delKey vo p
    · subst hx; exact supd_self ..
    · rw [supd_other m hx]; exact h

/-- `deleteIndices(value)` erases every alternative key extracted from
the value. -/
theorem deleteIndicesMap_erases (idx : List String) (v : Json) (a : String)
    (ha : a ∈ extrList idx v) :
    ∀ m : Smap String, deleteIndicesMap idx (some v) m a = none := by
  induction idx with
  | nil => simp [extrList] at ha
  | cons p rest ih =>
    intro m
    rw [deleteIndicesMap_cons]
    rcases List.mem_filterMap.mp ha with ⟨q, hq, hext⟩
    rcases List.mem_cons.mp hq with hq | hq
    · subst hq
      by_cases hmem : a ∈ extrList rest v
      · exact ih hmem _
      · refine deleteIndicesMap_none _ _ _ _ ?_
        have hdk : delKey (some v) q = a := by
          simp only [delKey, Option.bind]
          cases hlq : lget v q with
          | none => rw [hlq] at hext; simp at hext
          | some j => rw [hlq] at hext; simp at hext; simp [hext]
        rw [hdk]; exact supd_self ..
    · exact ih (List.mem_filterMap.mpr ⟨q, hq, hext⟩) _

/-- Every lookup in the map left by `setIndices` is either the freshly
written primary key or the old binding. -/
theorem setIndicesMap_lookup (idx : List String) (key : String) (v : Json) :
    ∀ (m : Smap String) (x : String),
      setIndicesMap idx key v m x = some key ∨ setIndicesMap idx key v m x = m x := by
  induction idx with
  | nil => intro m x; exact Or.inr rfl
  | cons p rest ih =>
    intro m x
    rw [setIndicesMap_cons]
    cases hlq : lget v p with
    | none => exact ih m x
    | some j =>
      rcases ih (supd m (jsToString j) (some key)) x with h | h
      · exact Or.inl h
      · by_cases hx : x = jsToString j
        · subst hx; rw [h, supd_self]; exact Or.inl rfl
        · rw [h, supd_other m hx]; exact Or.inr rfl

/-- `setIndices` leaves untouched every key the new value does not
extract. -/
theorem setIndicesMap_not_mem (idx : List String) (key : String) (v : Json) (a : String)
    (ha : a ∉ extrList idx v) :
    ∀ m : Smap String, setIndicesMap idx key v m a = m a := by
  induction idx with
  | nil => intro m; rfl
  | cons p rest ih =>
    intro m
    rw [setIndicesMap_cons]
    have harest : a ∉ extrList rest v := by
      intro h; exact ha (by
        rcases List.mem_filterMap.mp h with ⟨q, hq, hext⟩
        exact List.mem_filterMap.mpr ⟨q, List.mem_cons_of_mem _ hq, hext⟩)
    cases hlq : lget v p with
    | none => exact ih harest m
    | some j =>
      rw [ih harest _]
      have hne : a ≠ jsToString j := by
        intro h
        exact ha (List.mem_filterMap.mpr ⟨p, List.mem_cons_self .., by rw [hlq]; simp [h]⟩)
      exact supd_other m hne _

/-- `setIndices` binds every alternative key extracted from the new
value to the written primary key. -/
theorem setIndicesMap_mem (idx : List String) (key : String) (v : Json) (a : String)
    (ha : a ∈ extrList idx v) :
    ∀ m : Smap String, setIndicesMap idx key v m a = some key := by
  induction idx with
  | nil => simp [extrList] at ha
  | cons p rest ih =>
    intro m
    rw [setIndicesMap_cons]
    by_cases hmem : a ∈ extrList rest v
    · cases hlq : lget v p with
      | none => exact ih hmem m
      | some j => exact ih hmem _
    · rcases List.mem_filterMap.mp ha with ⟨q, hq, hext⟩
      rcases List.mem_cons.mp hq with hq | hq
      · subst hq
        cases hlq : lget v q with
        | none => rw [hlq] at hext; simp at hext
        | some j =>
          rw [hlq] at hext; simp at hext
          rcases setIndicesMap_lookup rest key v (supd m (jsToString j) (some key)) a with h | h
          · exact h
          · rw [h, hext, supd_self]
      · exact absurd (List.mem_filterMap.mpr ⟨q, hq, hext⟩) hmem

/-- `get` of the plain partition never touches the files or the index
map. -/
theorem plainGet_frame (σ : PState) (k : String) :
    (plainGet σ k).2.indexMap = σ.indexMap ∧ (plainGet σ k).2.files = σ.files := by
  unfold plainGet
  cases hc : σ.cache (resolveKey σ k) with
  | some c =>
    by_cases ht : jsTruthy c
    · simp [hc, ht]
    · cases hf : σ.files (resolveKey σ k) with
      | some fd => cases fd <;> simp [hc, ht, hf, parseFile]
      | none => simp [hc, ht, hf]
  | none =>
    cases hf : σ.files (resolveKey σ k) with
    | some fd => cases fd <;> simp [hc, hf, parseFile]
    | none => simp [hc, hf]

/-- Resolution of a key with no index binding is the key itself. -/
theorem resolveKey_none (σ : PState) (k : String) (h : σ.indexMap k = none) :
    resolveKey σ k = k := by
  simp [resolveKey, h]

/-- `get` only ever writes the cache slot of the resolved key. -/
theorem plainGet_cache_other (σ : PState) (k x : String) (hx : x ≠ resolveKey σ k) :
    (plainGet σ k).2.cache x = σ.cache x := by
  unfold plainGet
  cases hc : σ.cache (resolveKey σ k) with
  | some c =>
    by_cases ht : jsTruthy c
    · simp [hc, ht]
    · cases hf : σ.files (resolveKey σ k) with
      | some fd => cases fd <;> simp [hc, ht, hf, parseFile, supd_other _ hx]
      | none => simp [hc, ht, hf]
  | none =>
    cases hf : σ.files (resolveKey σ k) with
    | some fd => cases fd <;> simp [hc, hf, parseFile, supd_other _ hx]
    | none => simp [hc, hf]

/-- When the resolved key's file parses to `V` and its cache slot is
empty, falsy (so the read falls through to the file) or already holds
`V`, `get` returns `V`. -/
theorem plainGet_good_file (σ : PState) (k : String) (V : Json)
    (hfile : σ.files (resolveKey σ k) = some (.good V))
    (hcache : ∀ w, σ.cache (resolveKey σ k) = some w → jsTruthy w = false ∨ w = V) :
    (plainGet σ k).1 = some V := by
  unfold plainGet
  cases hc : σ.cache (resolveKey σ k) with
  | none => simp [hc, hfile, parseFile]
  | some w =>
    rcases hcache w hc with hw | rfl
    · simp [hc, hw, hfile, parseFile]
    · by_cases ht : jsTruthy w
      · simp [hc, ht]
      · simp [hc, ht, hfile, parseFile]

/-- When the resolved key has neither a file nor a cache entry, `get`
returns the absent sentinel. -/
theorem plainGet_none_of_missing (σ : PState) (k : String)
    (hfile : σ.files (resolveKey σ k) = none)
    (hcache : σ.cache (resolveKey σ k) = none) :
    (plainGet σ k).1 = none := by
  unfold plainGet
  simp [hcache, hfile]

/-- Unfolding of `set` on an existing key: the fetched old value's
indices are deleted, the file is written, the new indices are set and
the cache refreshed. -/
theorem plainSet_state_exists (idx : List String) (σ : PState) (key : String) (value : Json)
    (hex : plainExists σ key = true) :
    (plainSet idx σ key value).2 =
      { files := supd (plainGet σ key).2.files key (some (.good value)),
        indexMap := setIndicesMap idx key value
          (deleteIndicesMap idx (plainGet σ key).1 (plainGet σ key).2.indexMap),
        cache := supd (plainGet σ key).2.cache key (some value) } := by
  simp [plainSet, hex]

/-- Unfolding of `set` on a fresh key: no index deletion happens. -/
theorem plainSet_state_fresh (idx : List String) (σ : PState) (key : String) (value : Json)
    (hex : plainExists σ key = false) :
    (plainSet idx σ key value).2 =
      { files := supd σ.files key (some (.good value)),
        indexMap := setIndicesMap idx key value σ.indexMap,
        cache := supd σ.cache key (some value) } := by
  simp [plainSet, hex]

/-- Fresh single-key bitemporal partition state. -/
def biEmpty : BiState := { stored := none, cache := none }

/-- State after `set("ocean", "X", validFrom := 1, validTo := 500)` on an
empty bitemporal partition, at wall clock 1000. -/
def c1SetState : BiState := (biSet biEmpty (Json.str "X") (some 1) (some 500) none 1000).2

/-- C1: the claim reads "`get(K, t)` returns the data of the unique live
slice whose half-open interval `[validFrom, validTo)` contains `t`, and
the absent sentinel when no live slice's interval contains `t`".  The
source violates this: `set` stores every slice with `validFrom = 0` and
`validTo = INFINITY_TIME`, ignoring its `validFrom`/`validTo` arguments,
and `get` never reads `validAsOf`.  After `set(K, X, 1, 500)` the claim
requires `get(K, 2000)` to be absent (the requested interval `[1,500)`
does not contain 2000, as the spec-modelled selection confirms), yet the
code returns `X`. -/
theorem bitemporal_get_ignores_valid_time :
    (∃ s, (c1SetState.stored.bind (fun r => r.data 1)) = some s
        ∧ s.validFrom = some 0 ∧ s.validTo = some INFINITY_TIME)
    ∧ (biGet c1SetState (some 2000) none).1 = some (Json.str "X")
    ∧ specSelectSlice [{ data := Json.str "X", validFrom := 1, validTo := 500 }] 2000 = none :=
  ⟨⟨_, rfl, rfl, rfl⟩, rfl, rfl⟩

/-- Result of `set("ocean", "Y", validFrom := 50, validTo := 25)` on an
empty bitemporal partition, at wall clock 1000. -/
def c2SetResult : Bool × BiState := biSet biEmpty (Json.str "Y") (some 50) (some 25) none 1000

/-- C2: the claim reads "bitemporal `set` with a supplied `validTo` that
is not the infinity sentinel and satisfies `validTo ≤ validFrom` raises
the InvalidInterval error".  No such validation exists anywhere in the
source: `set(K, Y, 50, 25)` returns the success result `true` and stores
a slice with `validFrom = 0`, `validTo = INFINITY_TIME`. -/
theorem bitemporal_set_accepts_empty_interval :
    c2SetResult.1 = true
    ∧ (∃ s, (c2SetResult.2.stored.bind (fun r => r.data 1)) = some s
        ∧ s.validFrom = some 0 ∧ s.validTo = some INFINITY_TIME
        ∧ s.data = some (Json.str "Y")) :=
  ⟨rfl, ⟨_, rfl, rfl, rfl, rfl⟩⟩

/-- C9: registering a name through `getVersionedPartition` stores a
registry entry with `versioned: true`; any subsequent
`getPartitionByName` on that name re-registers it through
`getPartition`, overwriting the entry with one whose `versioned` flag is
`false` while preserving the recorded name and cache size — the flavor
record is lost. -/
theorem registry_byname_drops_versioned_flag (σ : RegState) (pname : String)
    (cs : Option Nat) :
    (getVersionedPartitionReg σ pname cs).partitions pname
      = some { name := pname, cache := cs.getD σ.defaultCacheSize, versioned := true }
    ∧ ∃ σ2, getPartitionByNameReg (getVersionedPartitionReg σ pname cs) pname = some σ2
        ∧ σ2.partitions pname
          = some { name := pname, cache := cs.getD σ.defaultCacheSize, versioned := false } := by
  refine ⟨?_,
    ⟨getPartitionReg (getVersionedPartitionReg σ pname cs) pname
        (some (cs.getD σ.defaultCacheSize)), ?_, ?_⟩⟩
  · simp [getVersionedPartitionReg, supd_self]
  · simp [getPartitionByNameReg, getVersionedPartitionReg, supd_self]
  · simp [getPartitionByNameReg, getPartitionReg, getVersionedPartitionReg, supd_self]

/-- C7: a versioned read that requests an explicit non-latest version
(`version ≠ 0`, so `!version` is false) neither consults nor populates
the cache, in both the unitemporal and the bitemporal partition: the
state is unchanged and the result is independent of the cache
contents. -/
theorem versioned_read_bypasses_cache (σu : UniState) (σb : BiState) (asOf : Option Int)
    (i : Nat) (hi : i ≠ 0)
    (hu : ∀ r, σu.stored = some r → i ≠ r.latestVersion)
    (hb : ∀ r, σb.stored = some r → i ≠ r.latestVersion) :
    (uniGet σu (some i)).2 = σu
    ∧ (biGet σb asOf (some i)).2 = σb
    ∧ (∀ c1 c2 : Option Json,
        (uniGet { σu with cache := c1 } (some i)).1
          = (uniGet { σu with cache := c2 } (some i)).1)
    ∧ (∀ c1 c2 : Option Json,
        (biGet { σb with cache := c1 } asOf (some i)).1
          = (biGet { σb with cache := c2 } asOf (some i)).1) := by
  have hv : decide (i ≠ 0) = true := by simp [hi]
  refine ⟨?_, ?_, ?_, ?_⟩
  · cases hσ : σu.stored <;> simp [uniGet, hv, hσ]
  · cases hσ : σb.stored <;> simp [biGet, hv, hσ]
  · intro c1 c2; cases hσ : σu.stored <;> simp [uniGet, hv, hσ]
  · intro c1 c2; cases hσ : σb.stored <;> simp [biGet, hv, hσ]

/-- Concrete two-version unitemporal state for the C7 witness. -/
def uniW : UniState :=
  { stored := some
      { latestVersion := 2,
        data := fun v =>
          if v = 1 then
            some { data := some (Json.str "a"), version := some 1, createdAt := some 5,
                   deletedAt := some 7, metadata := none }
          else if v = 2 then
            some { data := some (Json.str "b"), version := some 2, createdAt := some 7,
                   deletedAt := some INFINITY_TIME, metadata := none }
          else none },
    cache := some (Json.str "b") }

/-- Concrete one-version bitemporal state for the C7 witness. -/
def biW : BiState :=
  { stored := some
      { latestVersion := 2,
        data := fun v =>
          if v = 2 then
            some { data := some (Json.str "y"), version := some 2, createdAt := some 7,
                   deletedAt := some INFINITY_TIME, validFrom := some 0,
                   validTo := some INFINITY_TIME, metadata := none }
          else none },
    cache := some (Json.str "y") }

/-- Witness for C7 at version 1 of concrete two-version states. -/
theorem versioned_read_bypasses_cache_witness :
    ((1 : Nat) ≠ 0)
    ∧ (∀ r, uniW.stored = some r → 1 ≠ r.latestVersion)
    ∧ (∀ r, biW.stored = some r → 1 ≠ r.latestVersion)
    ∧ ((uniGet uniW (some 1)).2 = uniW
        ∧ (biGet biW (some 42) (some 1)).2 = biW
        ∧ (∀ c1 c2 : Option Json,
            (uniGet { uniW with cache := c1 } (some 1)).1
              = (uniGet { uniW with cache := c2 } (some 1)).1)
        ∧ (∀ c1 c2 : Option Json,
            (biGet { biW with cache := c1 } (some 42) (some 1)).1
              = (biGet { biW with cache := c2 } (some 42) (some 1)).1)) :=
  ⟨by decide,
   fun r hr => by cases hr; decide,
   fun r hr => by cases hr; decide,
   versioned_read_bypasses_cache uniW biW (some 42) 1 (by decide)
     (fun r hr => by cases hr; decide) (fun r hr => by cases hr; decide)⟩

/-- C5 (amended): `set(K, V)` followed immediately by `get(K)` returns
`V`, provided K is not recorded as an alternative key in the index map
when `set` is called.  (Without that proviso the claim fails: see the
counterexample, where a stale alias makes `get` resolve K to a different
primary key.) -/
theorem plain_set_get_roundtrip (idx : List String) (σ : PState) (key : String) (value : Json)
    (hkey : σ.indexMap key = none) :
    (plainGet (plainSet idx σ key value).2 key).1 = some value := by
  by_cases hex : plainExists σ key
  · rw [plainSet_state_exists idx σ key value hex]
    have hm1 : deleteIndicesMap idx (plainGet σ key).1 (plainGet σ key).2.indexMap key
        = none := by
      rcases deleteIndicesMap_lookup idx (plainGet σ key).1 ((plainGet σ key).2.indexMap) key
        with h | h
      · rw [h, (plainGet_frame σ key).1, hkey]
      · exact h
    have hres : ∀ m : Smap String, m = setIndicesMap idx key value
        (deleteIndicesMap idx (plainGet σ key).1 (plainGet σ key).2.indexMap) →
        (m key).getD key = key := by
      intro m hm
      rcases setIndicesMap_lookup idx key value
          (deleteIndicesMap idx (plainGet σ key).1 (plainGet σ key).2.indexMap) key with h | h
      · rw [hm, h]; rfl
      · rw [hm, h, hm1]; rfl
    have hr : resolveKey
        { files := supd (plainGet σ key).2.files key (some (.good value)),
          indexMap := setIndicesMap idx key value
            (deleteIndicesMap idx (plainGet σ key).1 (plainGet σ key).2.indexMap),
          cache := supd (plainGet σ key).2.cache key (some value) } key = key :=
      hres _ rfl
    refine plainGet_good_file _ key value ?_ ?_
    · rw [hr]; exact supd_self ..
    · rw [hr]; intro w hw; right
      have hw2 : supd (plainGet σ key).2.cache key (some value) key = some w := hw
      rw [supd_self] at hw2
      exact (Option.some.inj hw2).symm
  · rw [plainSet_state_fresh idx σ key value (by simpa using hex)]
    have hres : (setIndicesMap idx key value σ.indexMap key).getD key = key := by
      rcases setIndicesMap_lookup idx key value σ.indexMap key with h | h
      · rw [h]; rfl
      · rw [h, hkey]; rfl
    have hr : resolveKey
        { files := supd σ.files key (some (.good value)),
          indexMap := setIndicesMap idx key value σ.indexMap,
          cache := supd σ.cache key (some value) } key = key := hres
    refine plainGet_good_file _ key value ?_ ?_
    · rw [hr]; exact supd_self ..
    · rw [hr]; intro w hw; right
      have hw2 : supd σ.cache key (some value) key = some w := hw
      rw [supd_self] at hw2
      exact (Option.some.inj hw2).symm

set_option maxRecDepth 100000

/-- Object value with a single indexed field `f`. -/
def jF (s : String) : Json := Json.obj [("f", Json.str s)]

/-- The single index path declared in the counterexample partition. -/
def idxF : List String := ["f"]

/-- Empty plain-partition state. -/
def emptyP : PState := { files := fun _ => none, indexMap := fun _ => none, cache := fun _ => none }

/-- Reachable state after three writes on an indexed plain partition:
`set("B", {f:"A"}); set("A", {f:"C"}); set("B", {f:"A"})`.  At this point
the index map holds both `"C" → "A"` and the alias `"A" → "B"`, so the
key `"A"` is simultaneously a primary key and an alternative key. -/
def aliasStep3 : PState :=
  (plainSet idxF (plainSet idxF (plainSet idxF emptyP "B" (jF "A")).2 "A" (jF "C")).2
    "B" (jF "A")).2

/-- State after the overwrite `set("A", {f:"D"})` on `aliasStep3`:
because `"A"` resolves to `"B"`, `deleteIndices` removes the extraction
of B's value instead of A's old value, so the stale alias `"C" → "A"`
survives. -/
def aliasStep4 : PState := (plainSet idxF aliasStep3 "A" (jF "D")).2

/-- State after the further write `set("C", {f:"E"})` on `aliasStep4`. -/
def aliasStep5 : PState := (plainSet idxF aliasStep4 "C" (jF "E")).2

/-- C5 counterexample: on the reachable state `aliasStep4` (produced from
an empty indexed partition by four `set` calls), `set("C", {f:"E"})`
followed immediately by `get("C")` returns `{f:"D"}` — the value of the
primary key `"A"` that the stale alias `"C" → "A"` resolves to — and not
the value `{f:"E"}` that was just written, refuting the claim as
stated. -/
theorem plain_set_get_roundtrip_counterexample :
    aliasStep5 = (plainSet idxF aliasStep4 "C" (jF "E")).2
    ∧ (plainGet aliasStep5 "C").1 = some (jF "D")
    ∧ (plainGet aliasStep5 "C").1 ≠ some (jF "E") := by
  have hval : (plainGet aliasStep5 "C").1 = some (jF "D") := by
    with_unfolding_all rfl
  refine ⟨rfl, hval, ?_⟩
  rw [hval]
  intro h
  have h2 : jF "D" = jF "E" := Option.some.inj h
  simp [jF] at h2

/-- Witness for the amended C5 on a concrete indexed partition whose
index map does not mention the written key. -/
theorem plain_set_get_roundtrip_witness :
    (emptyP.indexMap "gravity" = none)
    ∧ (plainGet (plainSet idxF emptyP "gravity" (jF "J")).2 "gravity").1 = some (jF "J") :=
  ⟨rfl, plain_set_get_roundtrip idxF emptyP "gravity" (jF "J") rfl⟩

/-- C6 (amended): on a partition with declared index paths, when
`set(K, V2)` overwrites an existing value `V1` whose extracted indexed
field `a1` is not among V2's extractions, a `get` on the prior
alternative key `a1` returns the absent sentinel and a `get` on any new
alternative key `a2` of V2 returns the value now stored at K — provided
K is not itself recorded as an alternative key at the time of the `set`
(without that proviso the claim fails, see the counterexample), the
cache slot of K is coherent, and `a1` has no file or cache entry of its
own. -/
theorem index_reassignment (idx : List String) (σ : PState) (K : String) (V1 V2 : Json)
    (a1 a2 : String)
    (hK : σ.indexMap K = none)
    (hfile : σ.files K = some (.good V1))
    (hcache : σ.cache K = none ∨ σ.cache K = some V1)
    (ha1 : a1 ∈ extrList idx V1)
    (ha1n : a1 ∉ extrList idx V2)
    (ha1K : a1 ≠ K)
    (hf1 : σ.files a1 = none)
    (hc1 : σ.cache a1 = none)
    (ha2 : a2 ∈ extrList idx V2) :
    (plainGet (plainSet idx σ K V2).2 a1).1 = none
    ∧ (plainGet (plainSet idx σ K V2).2 a2).1 = some V2 := by
  have hrK : resolveKey σ K = K := resolveKey_none σ K hK
  have hex : plainExists σ K = true := by
    simp [plainExists, hrK, hfile]
  have hg1 : (plainGet σ K).1 = some V1 := by
    refine plainGet_good_file σ K V1 (by rw [hrK]; exact hfile) ?_
    rw [hrK]
    intro w hw
    rcases hcache with hc | hc
    · rw [hc] at hw; exact absurd hw (by simp)
    · rw [hc] at hw; exact Or.inr (Option.some.inj hw).symm
  rw [plainSet_state_exists idx σ K V2 hex, hg1, (plainGet_frame σ K).1,
    (plainGet_frame σ K).2]
  have hmap1 : setIndicesMap idx K V2 (deleteIndicesMap idx (some V1) σ.indexMap) a1
      = none := by
    rw [setIndicesMap_not_mem idx K V2 a1 ha1n]
    exact deleteIndicesMap_erases idx V1 a1 ha1 σ.indexMap
  have hmap2 : setIndicesMap idx K V2 (deleteIndicesMap idx (some V1) σ.indexMap) a2
      = some K :=
    setIndicesMap_mem idx K V2 a2 ha2 _
  constructor
  · refine plainGet_none_of_missing _ a1 ?_ ?_
    · show supd σ.files K (some (.good V2)) (resolveKey _ a1) = none
      have hra : resolveKey
          { files := supd σ.files K (some (.good V2)),
            indexMap := setIndicesMap idx K V2 (deleteIndicesMap idx (some V1) σ.indexMap),
            cache := supd (plainGet σ K).2.cache K (some V2) } a1 = a1 := by
        simp [resolveKey, hmap1]
      rw [hra, supd_other _ ha1K, hf1]
    · show supd (plainGet σ K).2.cache K (some V2) (resolveKey _ a1) = none
      have hra : resolveKey
          { files := supd σ.files K (some (.good V2)),
            indexMap := setIndicesMap idx K V2 (deleteIndicesMap idx (some V1) σ.indexMap),
            cache := supd (plainGet σ K).2.cache K (some V2) } a1 = a1 := by
        simp [resolveKey, hmap1]
      rw [hra, supd_other _ ha1K]
      rw [plainGet_cache_other σ K a1 (by rw [hrK]; exact ha1K)]
      exact hc1
  · have hra : resolveKey
        { files := supd σ.files K (some (.good V2)),
          indexMap := setIndicesMap idx K V2 (deleteIndicesMap idx (some V1) σ.indexMap),
          cache := supd (plainGet σ K).2.cache K (some V2) } a2 = K := by
      simp [resolveKey, hmap2]
    refine plainGet_good_file _ a2 V2 ?_ ?_
    · show supd σ.files K (some (.good V2)) (resolveKey _ a2) = some (.good V2)
      rw [hra, supd_self]
    · show ∀ w, supd (plainGet σ K).2.cache K (some V2) (resolveKey _ a2) = some w →
        jsTruthy w = false ∨ w = V2
      rw [hra]
      intro w hw
      rw [supd_self] at hw
      exact Or.inr (Option.some.inj hw).symm

/-- C6 counterexample: `aliasStep4` arises from `aliasStep3` by
`set("A", {f:"D"})`, overwriting A's existing value `{f:"C"}` (whose
extracted field `"C"` differs from the new extraction `"D"`), yet the
prior alternative key `"C"` does not return the absent sentinel: the
stale alias `"C" → "A"` survives because `set` deleted the extractions
of the record `"A"` resolved to (primary `"B"`), not A's own old value,
so `get("C")` returns A's current value. -/
theorem index_reassignment_counterexample :
    aliasStep3.files "A" = some (.good (jF "C"))
    ∧ aliasStep4 = (plainSet idxF aliasStep3 "A" (jF "D")).2
    ∧ extrList idxF (jF "C") = ["C"]
    ∧ extrList idxF (jF "D") = ["D"]
    ∧ (plainGet aliasStep4 "C").1 = some (jF "D")
    ∧ (plainGet aliasStep4 "C").1 ≠ none := by
  have hfileA : aliasStep3.files "A" = some (.good (jF "C")) := by
    with_unfolding_all rfl
  have hval : (plainGet aliasStep4 "C").1 = some (jF "D") := by
    with_unfolding_all rfl
  refine ⟨hfileA, rfl, by with_unfolding_all rfl, by with_unfolding_all rfl, hval, ?_⟩
  rw [hval]
  exact Option.some_ne_none _

/-- Concrete state for the C6 witness: one primary key `"k"` holding
`{f:"old"}` with its alias `"old"` registered, no other state. -/
def reassignW : PState :=
  { files := supd (fun _ => none) "k" (some (.good (jF "old"))),
    indexMap := supd (fun _ => none) "old" (some "k"),
    cache := fun _ => none }

/-- Witness for the amended C6: overwriting `{f:"old"}` with
`{f:"new"}` at key `"k"` makes `get("old")` absent and `get("new")`
return the new value. -/
theorem index_reassignment_witness :
    (reassignW.indexMap "k" = none
      ∧ reassignW.files "k" = some (.good (jF "old"))
      ∧ ("old" ∈ extrList idxF (jF "old") ∧ "old" ∉ extrList idxF (jF "new"))
      ∧ "new" ∈ extrList idxF (jF "new"))
    ∧ (plainGet (plainSet idxF reassignW "k" (jF "new")).2 "old").1 = none
    ∧ (plainGet (plainSet idxF reassignW "k" (jF "new")).2 "new").1 = some (jF "new") := by
  have hmem1 : "old" ∈ extrList idxF (jF "old") := by
    with_unfolding_all decide
  have hmem2 : "old" ∉ extrList idxF (jF "new") := by
    with_unfolding_all decide
  have hmem3 : "new" ∈ extrList idxF (jF "new") := by
    with_unfolding_all decide
  refine ⟨⟨rfl, rfl, ⟨hmem1, hmem2⟩, hmem3⟩, ?_⟩
  exact index_reassignment idxF reassignW "k" (jF "old") (jF "new") "old" "new"
    rfl rfl (Or.inl rfl) hmem1 hmem2 (by decide) rfl rfl hmem3

/-- C8: when the resolved key's file is missing (the read throws) or its
contents fail `JSON.parse`, and no truthy cache entry short-circuits the
read, `get` returns the absent sentinel — the failure is caught inside
`get` (the model is a total function into `Option`, mirroring the
source's try/catch), so a corrupt key file reads as a missing key, not a
fatal partition error. -/
theorem corrupt_key_file_reads_absent (σ : PState) (k : String)
    (hcache : ∀ v, σ.cache (resolveKey σ k) = some v → jsTruthy v = false)
    (hfile : σ.files (resolveKey σ k) = none
      ∨ ∃ s, σ.files (resolveKey σ k) = some (.corrupt s)) :
    (plainGet σ k).1 = none := by
  unfold plainGet
  rcases hfile with hf | ⟨s, hf⟩ <;>
    cases hc : σ.cache (resolveKey σ k) with
    | some c => have hcf := hcache c hc; simp [hc, hcf, hf, parseFile]
    | none => simp [hc, hf, parseFile]

/-- Concrete partition state holding one corrupt key file for the C8
witness. -/
def corruptW : PState :=
  { files := supd (fun _ => none) "k" (some (.corrupt "this is not json")),
    indexMap := fun _ => none,
    cache := fun _ => none }

/-- Witness for C8 on a concrete corrupt key file. -/
theorem corrupt_key_file_reads_absent_witness :
    (∀ v, corruptW.cache (resolveKey corruptW "k") = some v → jsTruthy v = false)
    ∧ (corruptW.files (resolveKey corruptW "k") = none
        ∨ ∃ s, corruptW.files (resolveKey corruptW "k") = some (.corrupt s))
    ∧ (plainGet corruptW "k").1 = none := by
  have hcw : ∀ v : Json, corruptW.cache (resolveKey corruptW "k") = some v →
      jsTruthy v = false := by
    intro v h
    exact absurd h (by simp [corruptW, resolveKey])
  refine ⟨hcw, Or.inr ⟨"this is not json", rfl⟩, ?_⟩
  exact corrupt_key_file_reads_absent corruptW "k" hcw
    (Or.inr ⟨"this is not json", rfl⟩)

/-- C10: when a key's file exists but its stored value deserializes to a
JSON-falsy value (`false`, `0`, `""` or `null`), `delete` takes the
`if (value)` false branch: it returns `false` and leaves the file on
disk, even though `exists` still returns `true` for the key. -/
theorem delete_falsy_value_returns_false (idx : List String) (σ : PState) (k : String)
    (v : Json)
    (hK : σ.indexMap k = none)
    (hfile : σ.files k = some (.good v))
    (hfalsy : v = Json.null ∨ v = Json.bool false ∨ v = Json.num 0 ∨ v = Json.str "")
    (hcache : ∀ w, σ.cache k = some w → jsTruthy w = false) :
    (plainDelete idx σ k).1 = false
    ∧ (plainDelete idx σ k).2.files k = some (.good v)
    ∧ plainExists (plainDelete idx σ k).2 k = true := by
  have hrK : resolveKey σ k = k := resolveKey_none σ k hK
  have hT : jsTruthy v = false := by
    rcases hfalsy with rfl | rfl | rfl | rfl <;> rfl
  have hg1 : (plainGet σ k).1 = some v := by
    refine plainGet_good_file σ k v (by rw [hrK]; exact hfile) ?_
    rw [hrK]
    exact fun w hw => Or.inl (hcache w hw)
  have hstate : plainDelete idx σ k
      = (false, { (plainGet σ k).2 with
          cache := supd (plainGet σ k).2.cache k none }) := by
    simp only [plainDelete, hrK, hg1, hT]
    simp
  rw [hstate]
  refine ⟨rfl, ?_, ?_⟩
  · show (plainGet σ k).2.files k = some (.good v)
    rw [(plainGet_frame σ k).2]; exact hfile
  · show plainExists { (plainGet σ k).2 with
        cache := supd (plainGet σ k).2.cache k none } k = true
    have hrK2 : resolveKey { (plainGet σ k).2 with
        cache := supd (plainGet σ k).2.cache k none } k = k := by
      simp [resolveKey, (plainGet_frame σ k).1, hK]
    unfold plainExists
    rw [hrK2]
    have hfk : (plainGet σ k).2.files k = some (.good v) := by
      rw [(plainGet_frame σ k).2]; exact hfile
    simp [hfk]

/-- Concrete partition state whose key `"z"` stores the falsy value `0`
for the C10 witness. -/
def falsyW : PState :=
  { files := supd (fun _ => none) "z" (some (.good (Json.num 0))),
    indexMap := fun _ => none,
    cache := fun _ => none }

/-- Witness for C10 on a concrete stored `0`. -/
theorem delete_falsy_value_returns_false_witness :
    (falsyW.indexMap "z" = none
      ∧ falsyW.files "z" = some (.good (Json.num 0))
      ∧ (Json.num 0 = Json.null ∨ Json.num 0 = Json.bool false ∨ Json.num 0 = Json.num 0
          ∨ Json.num 0 = Json.str ""))
    ∧ ((plainDelete [] falsyW "z").1 = false
        ∧ (plainDelete [] falsyW "z").2.files "z" = some (.good (Json.num 0))
        ∧ plainExists (plainDelete [] falsyW "z").2 "z" = true) :=
  ⟨⟨rfl, rfl, Or.inr (Or.inr (Or.inl rfl))⟩,
   delete_falsy_value_returns_false [] falsyW "z" (Json.num 0) rfl rfl
     (Or.inr (Or.inr (Or.inl rfl))) (fun _ h => nomatch h)⟩

/-- State of a fresh unitemporal key after the first `n` of a series of
`set` calls, where call `k` writes value `vs k` with metadata `mds k` at
wall clock `ts k`. -/
def uniSetIter (vs : Nat → Json) (ts : Nat → Int) (mds : Nat → Option Meta) : Nat → UniState
  | 0 => { stored := none, cache := none }
  | k + 1 => (uniSet (uniSetIter vs ts mds k) (vs (k + 1)) (mds (k + 1)) (ts (k + 1))).2

/-- The slot the record holds at version `i` once `N ≥ i` sets have run:
the `i`-th value and creation time, and a `deletedAt` that is the
infinity sentinel for the latest slot and the next write's time
otherwise. -/
def uniSlotModel (vs : Nat → Json) (ts : Nat → Int) (mds : Nat → Option Meta)
    (N i : Nat) : UniSlice :=
  { data := some (vs i), version := some i, createdAt := some (ts i),
    deletedAt := some (if i = N then INFINITY_TIME else ts (i + 1)),
    metadata := mds i }

/-- Slots strictly below the previous latest version are untouched by a
further `set`. -/
theorem uniSlotModel_mono (vs : Nat → Json) (ts : Nat → Int) (mds : Nat → Option Meta)
    (N i : Nat) (h1 : i ≠ N) (h2 : i ≠ N + 1) :
    uniSlotModel vs ts mds (N + 1) i = uniSlotModel vs ts mds N i := by
  simp [uniSlotModel, h1, h2]

/-- Characterization of the record after `N ≥ 1` consecutive `set`
calls on a fresh key. -/
theorem uniSetIter_char (vs : Nat → Json) (ts : Nat → Int) (mds : Nat → Option Meta) :
    ∀ N, 1 ≤ N → (uniSetIter vs ts mds N).stored
      = some { latestVersion := N,
               data := fun i =>
                 if 1 ≤ i ∧ i ≤ N then some (uniSlotModel vs ts mds N i) else none } := by
  intro N
  induction N with
  | zero => intro h; omega
  | succ k ih =>
    intro _
    by_cases hk : 1 ≤ k
    · have ihk := ih hk
      show (uniSet (uniSetIter vs ts mds k) (vs (k + 1)) (mds (k + 1)) (ts (k + 1))).2.stored
        = _
      simp only [uniSet, ihk]
      have hne : k + 1 ≠ 1 := by omega
      rw [if_pos hne]
      refine congrArg some ?_
      have hdata : ∀ i : Nat,
          nupd (nupd (fun i =>
              if 1 ≤ i ∧ i ≤ k then some (uniSlotModel vs ts mds k i) else none)
            (k + 1 - 1)
            (some (uniSpreadDeleted
              ((fun i => if 1 ≤ i ∧ i ≤ k then some (uniSlotModel vs ts mds k i) else none)
                (k + 1 - 1)) (ts (k + 1)))))
            (k + 1)
            (some { data := some (vs (k + 1)), version := some (k + 1),
                    createdAt := some (ts (k + 1)), deletedAt := some INFINITY_TIME,
                    metadata := mds (k + 1) }) i
          = if 1 ≤ i ∧ i ≤ k + 1 then some (uniSlotModel vs ts mds (k + 1) i) else none := by
        intro i
        have hsub : k + 1 - 1 = k := by omega
        rw [hsub]
        by_cases hi1 : i = k + 1
        · subst hi1
          rw [nupd_self, if_pos (by omega)]
          simp [uniSlotModel]
        · rw [nupd_other _ hi1]
          by_cases hi2 : i = k
          · rw [hi2, nupd_self]
            simp [uniSpreadDeleted, uniSlotModel, hk]
          · rw [nupd_other _ hi2]
            by_cases hir : 1 ≤ i ∧ i ≤ k
            · rw [if_pos hir, if_pos (by omega)]
              rw [uniSlotModel_mono vs ts mds k i hi2 hi1]
            · rw [if_neg hir, if_neg (by omega)]
      exact congrArg (UniRecord.mk (k + 1)) (funext hdata)
    · have hk0 : k = 0 := by omega
      subst hk0
      show (uniSet (uniSetIter vs ts mds 0) (vs 1) (mds 1) (ts 1)).2.stored = _
      simp only [uniSetIter, uniSet]
      rw [if_neg (by omega : ¬(1 : Nat) ≠ 1)]
      refine congrArg some (congrArg (UniRecord.mk 1) (funext fun i => ?_))
      by_cases hi : i = 1
      · subst hi
        rw [nupd_self, if_pos (by omega)]
        simp [uniSlotModel]
      · rw [nupd_other _ hi, if_neg (by omega)]

/-- C3: after `N ≥ 1` consecutive `set` calls on a fresh unitemporal
key (at non-negative wall-clock times), the stored record has
`latestVersion = N`; version slots are numbered contiguously from 1 to N
(`version = i` on slot i); slot N is the only slot whose `deletedAt` is
the infinity sentinel; and each slot's `deletedAt` equals the next
slot's `createdAt`. -/
theorem unitemporal_version_chain (vs : Nat → Json) (ts : Nat → Int)
    (mds : Nat → Option Meta) (N : Nat) (hN : 1 ≤ N) (hts : ∀ j, 0 ≤ ts j) :
    ∃ r, (uniSetIter vs ts mds N).stored = some r
      ∧ r.latestVersion = N
      ∧ (∀ i, (r.data i).isSome ↔ (1 ≤ i ∧ i ≤ N))
      ∧ (∀ i s, r.data i = some s → s.version = some i ∧ s.data = some (vs i))
      ∧ (∀ i s, r.data i = some s → (s.deletedAt = some INFINITY_TIME ↔ i = N))
      ∧ (∀ i, 1 ≤ i → i < N →
          ∃ s t, r.data i = some s ∧ r.data (i + 1) = some t
            ∧ s.deletedAt = t.createdAt) := by
  rw [uniSetIter_char vs ts mds N hN]
  refine ⟨_, rfl, rfl, ?_, ?_, ?_, ?_⟩
  · intro i
    by_cases h : 1 ≤ i ∧ i ≤ N <;> simp [h]
  · intro i s hs
    have hs2 : (if 1 ≤ i ∧ i ≤ N then some (uniSlotModel vs ts mds N i) else none)
        = some s := hs
    by_cases h : 1 ≤ i ∧ i ≤ N
    · rw [if_pos h] at hs2
      cases Option.some.inj hs2
      simp [uniSlotModel]
    · rw [if_neg h] at hs2
      exact absurd hs2 (by simp)
  · intro i s hs
    have hs2 : (if 1 ≤ i ∧ i ≤ N then some (uniSlotModel vs ts mds N i) else none)
        = some s := hs
    by_cases h : 1 ≤ i ∧ i ≤ N
    · rw [if_pos h] at hs2
      cases Option.some.inj hs2
      constructor
      · intro hdel
        by_contra hiN
        have hts1 : some (ts (i + 1)) = some INFINITY_TIME := by
          simpa [uniSlotModel, hiN] using hdel
        have hts2 := Option.some.inj hts1
        have hts3 := hts (i + 1)
        rw [hts2] at hts3
        simp [INFINITY_TIME] at hts3
      · intro hiN
        simp [uniSlotModel, hiN]
    · rw [if_neg h] at hs2
      exact absurd hs2 (by simp)
  · intro i h1 h2
    refine ⟨uniSlotModel vs ts mds N i, uniSlotModel vs ts mds N (i + 1), ?_, ?_, ?_⟩
    · show (if 1 ≤ i ∧ i ≤ N then some (uniSlotModel vs ts mds N i) else none)
        = some (uniSlotModel vs ts mds N i)
      rw [if_pos ⟨h1, by omega⟩]
    · show (if 1 ≤ i + 1 ∧ i + 1 ≤ N then some (uniSlotModel vs ts mds N (i + 1)) else none)
        = some (uniSlotModel vs ts mds N (i + 1))
      rw [if_pos ⟨by omega, by omega⟩]
    · have hiN : i ≠ N := by omega
      simp [uniSlotModel, hiN]

/-- C4: once version `i` has been written, `get(K, i)` returns the value
supplied to the `set` call that created version `i`, no matter how many
further `set` calls (`M ≥ i` in total) have happened since. -/
theorem unitemporal_get_history_immutable (vs : Nat → Json) (ts : Nat → Int)
    (mds : Nat → Option Meta) (M i : Nat) (h1 : 1 ≤ i) (h2 : i ≤ M) :
    (uniGet (uniSetIter vs ts mds M) (some i)).1 = some (vs i) := by
  have hM : 1 ≤ M := le_trans h1 h2
  have hchar := uniSetIter_char vs ts mds M hM
  have hi0 : i ≠ 0 := by omega
  have hv : decide (i ≠ 0) = true := by simp [hi0]
  simp [uniGet, hv, hchar, h1, h2, uniSlotModel]

/-- Concrete value series for the C3/C4 witnesses. -/
def vsW : Nat → Json := fun i => Json.num i

/-- Concrete non-negative time series for the C3/C4 witnesses. -/
def tsW : Nat → Int := fun i => 10 * i

/-- Concrete metadata series for the C3/C4 witnesses. -/
def mdsW : Nat → Option Meta := fun _ => none

/-- Witness for C3 at two consecutive writes. -/
theorem unitemporal_version_chain_witness :
    ((1 : Nat) ≤ 2) ∧ (∀ j, 0 ≤ tsW j)
    ∧ ∃ r, (uniSetIter vsW tsW mdsW 2).stored = some r
        ∧ r.latestVersion = 2
        ∧ (∀ i, (r.data i).isSome ↔ (1 ≤ i ∧ i ≤ 2))
        ∧ (∀ i s, r.data i = some s → s.version = some i ∧ s.data = some (vsW i))
        ∧ (∀ i s, r.data i = some s → (s.deletedAt = some INFINITY_TIME ↔ i = 2))
        ∧ (∀ i, 1 ≤ i → i < 2 →
            ∃ s t, r.data i = some s ∧ r.data (i + 1) = some t
              ∧ s.deletedAt = t.createdAt) :=
  ⟨by decide,
   fun j => by simp [tsW],
   unitemporal_version_chain vsW tsW mdsW 2 (by decide)
     (fun j => by simp [tsW])⟩

/-- Witness for C4: reading version 1 after three writes. -/
theorem unitemporal_get_history_immutable_witness :
    ((1 : Nat) ≤ 1) ∧ ((1 : Nat) ≤ 3)
    ∧ (uniGet (uniSetIter vsW tsW mdsW 3) (some 1)).1 = some (vsW 1) :=
  ⟨by decide, by decide,
   unitemporal_get_history_immutable vsW tsW mdsW 3 1 (by decide) (by decide)⟩
